import Mathlib

/-!
# Verification of the libottery pluggable-PRF keystream engine

A shallow embedding of `src/ottery-internal.h` and of the keystream engine it
declares.  The header contributes the PRF-descriptor record, the OS entropy
interface, the size bounds (`MAX_STATE_BYTES`, `MAX_STATE_LEN`,
`MAX_OUTPUT_LEN`) and the build-time algorithm-selection macros
(`OTTERY_HAVE_SIMD_IMPL`, the `ottery_prf_chachaN_` aliases).  The generator
state machine, the registry check and the concrete ChaCha implementations are
only declared there, so those parts are modelled from the specification, as
marked on each definition.
-/

set_option autoImplicit false

namespace Ottery

/-- Byte strings are lists of byte values (each `< 256` where it matters). -/
abbrev Bytes := List Nat

/-- The counter width: `idx` is an unsigned 32-bit value (`uint32_t idx`). -/
def counterModulus : Nat := 2 ^ 32

/-- `struct ottery_prf` from `ottery-internal.h` lines 37-74: immutable
metadata plus the two functions `setup` and `generate`.  `setup` expands
`state_bytes` seed bytes into a `state_len`-byte state; `generate` computes
`output_len` bytes from `(state, idx)`. -/
structure ottery_prf where
  name : String
  impl : String
  state_len : Nat
  state_bytes : Nat
  output_len : Nat
  idx_step : Nat
  setup : Bytes → Bytes
  generate : Bytes → Nat → Bytes

/-- `#define MAX_STATE_BYTES 64` (`ottery-internal.h` line 77). -/
def MAX_STATE_BYTES : Nat := 64

/-- `#define MAX_STATE_LEN 256` (`ottery-internal.h` line 79). -/
def MAX_STATE_LEN : Nat := 256

/-- `#define MAX_OUTPUT_LEN 256` (`ottery-internal.h` line 81). -/
def MAX_OUTPUT_LEN : Nat := 256

/-- Modelled from the spec: the registration-time bounds check on a
descriptor (the registration code itself is not under `src/`; the bounds are
those documented in the header: `state_len ≤ MAX_STATE_LEN`,
`state_bytes ≤ MAX_STATE_BYTES`, `state_bytes ≤ output_len`, together with
`state_bytes ≤ state_len` and `output_len ≤ MAX_OUTPUT_LEN` from the invariant set of the spec). -/
def descriptorOk (p : ottery_prf) : Bool :=
  p.state_bytes ≤ p.state_len && p.state_len ≤ MAX_STATE_LEN &&
  p.state_bytes ≤ MAX_STATE_BYTES &&
  p.state_bytes ≤ p.output_len && p.output_len ≤ MAX_OUTPUT_LEN

/-- Modelled from the spec: registration validates a descriptor once, at
registration time; a descriptor violating the bounds is rejected
(`InvalidDescriptor`), so every registered descriptor satisfies them. -/
def registerPrf (p : ottery_prf) : Option ottery_prf :=
  if descriptorOk p then some p else none

/-! ## Build-time algorithm selection (`ottery-internal.h` lines 19-24, 88-114) -/

/-- The preprocessor symbols that decide algorithm selection: whether
`OTTERY_NO_VECS` is defined, and which SIMD instruction sets the compiler
advertises (`__ARM_NEON__`, `__ALTIVEC__`, `__SSE2__`). -/
structure BuildConfig where
  ottery_no_vecs : Bool
  arm_neon : Bool
  altivec : Bool
  sse2 : Bool

/-- `OTTERY_HAVE_SIMD_IMPL` is defined exactly when `OTTERY_NO_VECS` is not
defined and at least one SIMD instruction set is available
(`ottery-internal.h` lines 19-24). -/
def OTTERY_HAVE_SIMD_IMPL (c : BuildConfig) : Bool :=
  !c.ottery_no_vecs && (c.arm_neon || c.altivec || c.sse2)

/-- The two implementation variants of the ChaCha PRF: the portable pure-C
`merged` one and the SIMD `krovetz` one. -/
inductive ChachaImpl where
  | merged
  | krovetz
deriving DecidableEq

/-- The three logical algorithm names: ChaCha at 8, 12 and 20 rounds. -/
inductive ChachaRounds where
  | r8
  | r12
  | r20
deriving DecidableEq

/-- A descriptor symbol named in the header: a round count together with an
implementation variant (e.g. `ottery_prf_chacha20_merged_`). -/
abbrev DescSym := ChachaRounds × ChachaImpl

/-- The descriptor symbols that exist in a given build configuration: the
`merged` descriptors are declared unconditionally (`ottery-internal.h`
lines 88-90), the `krovetz` ones only under `OTTERY_HAVE_SIMD_IMPL`
(lines 100-102). -/
def availableDescs (c : BuildConfig) : List DescSym :=
  [(.r8, .merged), (.r12, .merged), (.r20, .merged)] ++
  (if OTTERY_HAVE_SIMD_IMPL c then
    [(.r8, .krovetz), (.r12, .krovetz), (.r20, .krovetz)]
  else [])

/-- The implementation variant the default aliases resolve to: `krovetz`
under `OTTERY_HAVE_SIMD_IMPL`, `merged` otherwise (`ottery-internal.h`
lines 106-113). -/
def defaultImpl (c : BuildConfig) : ChachaImpl :=
  if OTTERY_HAVE_SIMD_IMPL c then .krovetz else .merged

/-- The alias `ottery_prf_chacha8_` (`ottery-internal.h` lines 106 / 111). -/
def ottery_prf_chacha8_ (c : BuildConfig) : DescSym := (.r8, defaultImpl c)

/-- The alias `ottery_prf_chacha12_` (`ottery-internal.h` lines 107 / 112). -/
def ottery_prf_chacha12_ (c : BuildConfig) : DescSym := (.r12, defaultImpl c)

/-- The alias `ottery_prf_chacha20_` (`ottery-internal.h` lines 108 / 113). -/
def ottery_prf_chacha20_ (c : BuildConfig) : DescSym := (.r20, defaultImpl c)

/-- Resolution of a logical algorithm name in a build configuration: each
round count is bound to its default alias. -/
def resolveAlgorithm (c : BuildConfig) (r : ChachaRounds) : DescSym :=
  match r with
  | .r8 => ottery_prf_chacha8_ c
  | .r12 => ottery_prf_chacha12_ c
  | .r20 => ottery_prf_chacha20_ c

/-! ## The block structure of a PRF (`ottery-internal.h` lines 31-35)

The header documents that every `ottery_prf` has an underlying function from
the state and a 4-byte counter to an `(output_len / idx_step)`-byte block,
computed `output_len` bytes at a time: one `generate` call at counter `idx`
produces the `idx_step` consecutive counter units starting at `idx`. -/

/-- Modelled from the spec: the `generate` function built from an underlying
per-counter unit function `u` (the concrete ChaCha implementations are not
under `src/`; the structure is the one documented in the header comment at
lines 31-35).  One call at counter `idx` concatenates the units at counters
`idx, idx+1, …, idx+step-1`. -/
def generateOfUnit (u : Bytes → Nat → Bytes) (step : Nat) (st : Bytes)
    (idx : Nat) : Bytes :=
  (List.range step).flatMap (fun j => u st (idx + j))

/-- Modelled from the spec: a descriptor whose `generate` has the documented
block structure, with unit length `L` (so `output_len = idx_step * L`). -/
def mkStructuredPrf (nm im : String) (sl sb L step : Nat)
    (su : Bytes → Bytes) (u : Bytes → Nat → Bytes) : ottery_prf :=
  { name := nm
    impl := im
    state_len := sl
    state_bytes := sb
    output_len := step * L
    idx_step := step
    setup := su
    generate := generateOfUnit u step }

/-! ## The OS entropy source (`ottery-internal.h` lines 7-17)

`ottery_os_randbytes_(bytes, n)` returns 0 on success and -1 on failure; on
failure the contents of the buffer must not be treated as random.  Only the
declaration is under `src/`, so the adapter is modelled from that contract:
an environment decides, per call, whether entropy is available (`outcome`),
and what unspecified garbage the buffer holds on a failed call (`junk`). -/

/-- Modelled from the spec: the OS randomness environment, indexed by the
sequence number of the entropy call and the number of bytes requested. -/
structure OSSource where
  outcome : Nat → Nat → Option Bytes
  junk : Nat → Nat → Bytes

/-- `ottery_os_randbytes_`: 0 (success) with the sampled bytes, or -1
(failure) with buffer contents that must not be treated as random. -/
def ottery_os_randbytes_ (src : OSSource) (call n : Nat) : Int × Bytes :=
  match src.outcome call n with
  | some bs => (0, bs)
  | none => (-1, src.junk call n)

/-! ## The keystream generator (modelled from the spec)

The generator implementation is not under `src/`; the state machine below is
modelled from the spec: a status among Uninitialized, Seeded, NeedsReseed and
Failed, a 32-bit counter advanced by `idx_step` per `generate` call, a
buffer of unconsumed keystream bytes, proactive reseed on a counter margin,
and fail-stop on entropy failure. -/

/-- The generator status values of the spec (`Unseeded` models the status
called Uninitialized there). -/
inductive GenStatus where
  | Unseeded
  | Seeded
  | NeedsReseed
  | Failed
deriving DecidableEq

/-- The error kinds of the spec: `EntropySourceUnavailable`, `InvalidDescriptor`,
`UseAfterFailure`. -/
inductive EngineErr where
  | EntropySourceUnavailable
  | InvalidDescriptor
  | UseAfterFailure
deriving DecidableEq

/-- One `generate` invocation recorded for analysis: the reseed epoch, the
state (key material) passed in, the counter value used, and the block
produced. -/
structure GCall where
  epoch : Nat
  key : Bytes
  idx : Nat
  block : Bytes
deriving DecidableEq

/-- Modelled from the spec: a generator instance.  `counter` is the unsigned
32-bit keystream index; `buffer` holds the not-yet-consumed keystream bytes;
`epoch` counts `setup` calls (it increments at each successful reseed);
`osCall` numbers the entropy calls made so far; `reseedMargin` is the
configurable counter-margin policy parameter; `log` is the ghost trace of
`generate` invocations performed on behalf of `fill`. -/
structure Generator where
  prf : ottery_prf
  state : Bytes
  counter : Nat
  buffer : Bytes
  status : GenStatus
  epoch : Nat
  osCall : Nat
  reseedMargin : Nat
  log : List GCall

/-- Modelled from the spec: `create(algorithm)` samples `state_bytes` from
the OS source, calls `setup`, zeroes the counter and sets status Seeded; if
the OS source fails it returns an entropy error and no generator. -/
def create (src : OSSource) (prf : ottery_prf) (margin : Nat) :
    Except EngineErr Generator :=
  if (ottery_os_randbytes_ src 0 prf.state_bytes).1 = 0 then
    .ok { prf := prf
          state := prf.setup (ottery_os_randbytes_ src 0 prf.state_bytes).2
          counter := 0
          buffer := []
          status := .Seeded
          epoch := 1
          osCall := 1
          reseedMargin := margin
          log := [] }
  else
    .error .EntropySourceUnavailable

/-- Modelled from the spec: `reseed()` samples fresh entropy and on success
replaces the state via `setup`, resets the counter to zero and discards the
buffered bytes; on failure it moves the generator to Failed (fail-stop, one
entropy call, no retry). -/
def reseed (src : OSSource) (g : Generator) : Generator :=
  if (ottery_os_randbytes_ src g.osCall g.prf.state_bytes).1 = 0 then
    { g with state := g.prf.setup
               (ottery_os_randbytes_ src g.osCall g.prf.state_bytes).2
             counter := 0
             buffer := []
             status := .Seeded
             epoch := g.epoch + 1
             osCall := g.osCall + 1 }
  else
    { g with status := .Failed
             buffer := []
             osCall := g.osCall + 1 }

/-- Modelled from the spec: the counter-margin guard.  A `generate` call at
the current counter is allowed only while the counter stays at least
`reseedMargin` short of the 32-bit limit — a safety margin well short of
overflow, not an exact-overflow check. -/
def canStep (g : Generator) : Bool :=
  g.counter + g.prf.idx_step + g.reseedMargin ≤ counterModulus

/-- The ghost-log record of a `generate` call made at the current
position of the generator. -/
def gEntry (g : Generator) : GCall :=
  { epoch := g.epoch
    key := g.state
    idx := g.counter
    block := g.prf.generate g.state g.counter }

/-- Modelled from the spec: one `generate` call on behalf of `fill`: append
the block at the current counter to the buffer, advance the counter by
`idx_step` (32-bit arithmetic), and record the call in the ghost log. -/
def genBlock (g : Generator) : Generator :=
  { g with buffer := g.buffer ++ g.prf.generate g.state g.counter
           counter := (g.counter + g.prf.idx_step) % counterModulus
           log := g.log ++ [gEntry g] }

/-- Modelled from the spec: refilling an empty buffer.  If the counter
margin is exhausted the generator reseeds first (and generates only if the
reseed succeeded); otherwise it generates directly. -/
def refill (src : OSSource) (g : Generator) : Generator :=
  if canStep g then genBlock g
  else if (reseed src g).status = .Seeded ∧ canStep (reseed src g) then
    genBlock (reseed src g)
  else reseed src g

/-- Prepending one served byte to the outcome of the rest of a request. -/
def consByte (b : Nat) (p : Except EngineErr Bytes × Generator) :
    Except EngineErr Bytes × Generator :=
  (p.1.map (fun bs => b :: bs), p.2)

/-- Modelled from the spec: the `fill` loop, consuming one requested byte
per step.  When the buffer is empty it is refilled; a reseed failure during
a refill aborts the whole request with an entropy error (no partial
success), and a refill that produces no bytes (a descriptor with
`output_len = 0`, or a margin policy that permits no step) aborts with
`InvalidDescriptor`. -/
def fillLoop (src : OSSource) : Nat → Generator →
    Except EngineErr Bytes × Generator
  | 0, g => (.ok [], g)
  | n + 1, g =>
    match g.buffer with
    | b :: rest => consByte b (fillLoop src n { g with buffer := rest })
    | [] =>
      if (refill src g).status = .Seeded then
        match (refill src g).buffer with
        | b :: rest =>
          consByte b (fillLoop src n { refill src g with buffer := rest })
        | [] => (.error .InvalidDescriptor, refill src g)
      else (.error .EntropySourceUnavailable, refill src g)

/-- Modelled from the spec: `fill(n)` is permitted only from status Seeded;
on any other status the request is refused (`UseAfterFailure`) and no bytes
are produced. -/
def fill (src : OSSource) (n : Nat) (g : Generator) :
    Except EngineErr Bytes × Generator :=
  if g.status = .Seeded then fillLoop src n g
  else (.error .UseAfterFailure, g)

/-- Two successive `fill` requests, with their outputs concatenated: the
reference composition for the buffering-correctness property. -/
def fillSplit (src : OSSource) (n1 n2 : Nat) (g : Generator) :
    Except EngineErr Bytes × Generator :=
  match fill src n1 g with
  | (.ok b1, g1) =>
    match fill src n2 g1 with
    | (.ok b2, g2) => (.ok (b1 ++ b2), g2)
    | (.error e, g2) => (.error e, g2)
  | (.error e, g1) => (.error e, g1)

/-- The operations a caller can perform on a live generator. -/
inductive Op where
  | fillOp (n : Nat)
  | reseedOp

/-- Applying one caller operation to a generator (the generator resulting
from a refused or failed `fill` is the one the `fill` left behind). -/
def applyOp (src : OSSource) (g : Generator) : Op → Generator
  | .fillOp n => (fill src n g).2
  | .reseedOp => reseed src g

/-- Running a sequence of caller operations. -/
def runOps (src : OSSource) (g : Generator) (ops : List Op) : Generator :=
  ops.foldl (applyOp src) g

/-- Completing a request whose first `n1` bytes already produced outcome
`p`: serve `n2` further bytes and concatenate.  Auxiliary to the buffering
correctness proof. -/
def combineFill (src : OSSource) (n2 : Nat)
    (p : Except EngineErr Bytes × Generator) :
    Except EngineErr Bytes × Generator :=
  match p with
  | (.ok b1, g1) =>
    match fillLoop src n2 g1 with
    | (.ok b2, g2) => (.ok (b1 ++ b2), g2)
    | (.error e, g2) => (.error e, g2)
  | (.error e, g1) => (.error e, g1)

/-! ## Invariants of the generator state machine -/

/-- A sane reseed policy: the counter advances per call (`idx_step ≥ 1`) and
the margin is positive yet leaves room for at least one step below the
32-bit limit. -/
def ConfigSane (g : Generator) : Prop :=
  1 ≤ g.prf.idx_step ∧ 1 ≤ g.reseedMargin ∧
  g.prf.idx_step + g.reseedMargin ≤ counterModulus

/-- Every logged `generate` call lies below the current counter position of
its epoch, and stayed within the 32-bit counter space (no wrap). -/
def LogBounded (g : Generator) : Prop :=
  ∀ e ∈ g.log,
    (e.epoch < g.epoch ∨
      (e.epoch = g.epoch ∧ e.idx + g.prf.idx_step ≤ g.counter)) ∧
    e.idx + g.prf.idx_step ≤ counterModulus

/-- No two logged `generate` calls used the same `(epoch, idx)` pair. -/
def LogDistinct (g : Generator) : Prop :=
  g.log.Pairwise (fun a b => a.epoch ≠ b.epoch ∨ a.idx ≠ b.idx)

/-- The generator invariant behind the reseed-before-overflow property. -/
def GenInv (g : Generator) : Prop :=
  ConfigSane g ∧ LogBounded g ∧ LogDistinct g

/-- The block of every logged call is the PRF value of its recorded state and
counter. -/
def LogFaithful (g : Generator) : Prop :=
  ∀ e ∈ g.log, e.block = g.prf.generate e.key e.idx

/-! ## Concrete instances used as witnesses -/

/-- A small concrete structured descriptor (a stand-in for a portable
ChaCha-shaped PRF: 32 seed bytes, 64-byte blocks, one counter unit per
call). -/
def tinyUnit (st : Bytes) (i : Nat) : Bytes :=
  List.replicate 64 ((st.headD 0 + i) % 256)

/-- A concrete registered-shaped descriptor built from `tinyUnit`. -/
def tinyChacha : ottery_prf :=
  mkStructuredPrf "chacha20" "merged" 64 32 64 1 (fun bs => bs.take 64)
    tinyUnit

/-- A minimal descriptor for exercising the generator model: 2-byte seeds,
2-byte blocks, counter step 1. -/
def tPrf : ottery_prf :=
  { name := "toy"
    impl := "toy"
    state_len := 2
    state_bytes := 2
    output_len := 2
    idx_step := 1
    setup := fun bs => bs.take 2
    generate := fun _ i => [i % 256, i / 256 % 256] }

/-- An always-succeeding entropy environment (every sample is all-sevens). -/
def tSrc : OSSource :=
  { outcome := fun _ n => some (List.replicate n 7), junk := fun _ _ => [] }

/-- An always-failing entropy environment. -/
def badSrc : OSSource :=
  { outcome := fun _ _ => none, junk := fun _ _ => [9, 9] }

/-- The generator `create tSrc tPrf 5` produces. -/
def tg0 : Generator :=
  { prf := tPrf
    state := [7, 7]
    counter := 0
    buffer := []
    status := .Seeded
    epoch := 1
    osCall := 1
    reseedMargin := 5
    log := [] }

/-- A generator stuck in status Failed. -/
def tgF : Generator :=
  { tg0 with status := .Failed }

/-! ## Theorems -/

/-- Claim C5: every registered PRF descriptor satisfies
`state_bytes ≤ state_len ≤ MAX_STATE_LEN (256)`,
`state_bytes ≤ MAX_STATE_BYTES (64)` and
`state_bytes ≤ output_len ≤ MAX_OUTPUT_LEN (256)`; the check happens at
registration (`registerPrf`), which passes the descriptor through
unchanged. -/
theorem registered_descriptor_bounds (p q : ottery_prf)
    (h : registerPrf p = some q) :
    q = p ∧
    p.state_bytes ≤ p.state_len ∧ p.state_len ≤ MAX_STATE_LEN ∧
    p.state_bytes ≤ MAX_STATE_BYTES ∧
    p.state_bytes ≤ p.output_len ∧ p.output_len ≤ MAX_OUTPUT_LEN := by
  unfold registerPrf at h
  by_cases hk : descriptorOk p = true
  · rw [if_pos hk] at h
    simp only [descriptorOk, Bool.and_eq_true, decide_eq_true_eq] at hk
    refine ⟨(Option.some.injEq _ _ ▸ h).symm, ?_, ?_, ?_, ?_, ?_⟩ <;> tauto
  · rw [if_neg hk] at h
    exact absurd h (by simp)

/-- Witness for C5 at the concrete descriptor `tinyChacha`. -/
theorem registered_descriptor_bounds_w :
    tinyChacha = tinyChacha ∧
    tinyChacha.state_bytes ≤ tinyChacha.state_len ∧
    tinyChacha.state_len ≤ MAX_STATE_LEN ∧
    tinyChacha.state_bytes ≤ MAX_STATE_BYTES ∧
    tinyChacha.state_bytes ≤ tinyChacha.output_len ∧
    tinyChacha.output_len ≤ MAX_OUTPUT_LEN :=
  registered_descriptor_bounds tinyChacha tinyChacha rfl

/-- Claim C8: each logical algorithm name resolves to exactly one descriptor
symbol, fixed by the build configuration: the SIMD (`krovetz`)
implementation exactly when `OTTERY_HAVE_SIMD_IMPL` holds, the portable
(`merged`) one otherwise, and defining `OTTERY_NO_VECS` forces the portable
variant in every environment (whatever SIMD sets are advertised). -/
theorem algorithm_resolution (c : BuildConfig) (r : ChachaRounds)
    (a b s : Bool) :
    resolveAlgorithm c r = (r, defaultImpl c) ∧
    (defaultImpl c = .krovetz ↔ OTTERY_HAVE_SIMD_IMPL c = true) ∧
    (defaultImpl c = .merged ↔ OTTERY_HAVE_SIMD_IMPL c = false) ∧
    defaultImpl
      { ottery_no_vecs := true, arm_neon := a, altivec := b, sse2 := s } =
      .merged := by
  obtain ⟨v, w, x, y⟩ := c
  cases r <;> cases v <;> cases w <;> cases x <;> cases y <;>
    cases a <;> cases b <;> cases s <;> decide

/-- Claim C10: the portable `merged` ChaCha descriptors exist in every build
configuration, the SIMD `krovetz` ones exactly when `OTTERY_HAVE_SIMD_IMPL`
is defined, and the default alias for each round count resolves to an
existing descriptor (so a portable fallback exists even on SIMD-capable
builds). -/
theorem chacha_descriptor_availability (c : BuildConfig) (r : ChachaRounds) :
    (r, ChachaImpl.merged) ∈ availableDescs c ∧
    ((r, ChachaImpl.krovetz) ∈ availableDescs c ↔
      OTTERY_HAVE_SIMD_IMPL c = true) ∧
    resolveAlgorithm c r ∈ availableDescs c := by
  obtain ⟨v, w, x, y⟩ := c
  cases r <;> cases v <;> cases w <;> cases x <;> cases y <;> decide

/-- Concatenating unit blocks over adjacent counter ranges: the units of one call
starting at `idx` followed by the units of one call starting at
`idx + a` is exactly the units of the doubled range starting at `idx`. -/
theorem generateOfUnit_append (u : Bytes → Nat → Bytes) (a c : Nat)
    (st : Bytes) (idx : Nat) :
    generateOfUnit u a st idx ++ generateOfUnit u c st (idx + a) =
      generateOfUnit u (a + c) st idx := by
  unfold generateOfUnit
  rw [List.range_add, List.flatMap_append, List.flatMap_map]
  simp [Function.comp, Nat.add_assoc]

/-- The length of a structured `generate` output is `step` units of `L`
bytes. -/
theorem generateOfUnit_length (u : Bytes → Nat → Bytes) (L : Nat)
    (hu : ∀ st i, (u st i).length = L) (step : Nat) (st : Bytes)
    (idx : Nat) : (generateOfUnit u step st idx).length = step * L := by
  induction step generalizing idx with
  | zero => simp [generateOfUnit]
  | succ k ih =>
    unfold generateOfUnit at ih ⊢
    rw [List.range_succ, List.flatMap_append, List.length_append, ih idx]
    simp [hu, Nat.succ_mul]

/-- Claim C9: a descriptor with the block structure documented in the
header (one `generate` call at counter `idx` yields the `idx_step`
consecutive counter units starting at `idx`, each of `L` bytes) satisfies
`idx_step ∣ output_len`, each call produces exactly `output_len` bytes, and
calls at `idx` and `idx + idx_step` concatenate to the contiguous
double-range keystream — adjacent and non-overlapping. -/
theorem prf_block_structure (nm im : String) (sl sb L step : Nat)
    (su : Bytes → Bytes) (u : Bytes → Nat → Bytes)
    (hu : ∀ st i, (u st i).length = L) :
    (mkStructuredPrf nm im sl sb L step su u).idx_step ∣
      (mkStructuredPrf nm im sl sb L step su u).output_len ∧
    (∀ st idx,
      ((mkStructuredPrf nm im sl sb L step su u).generate st idx).length =
        (mkStructuredPrf nm im sl sb L step su u).output_len) ∧
    (∀ st idx,
      (mkStructuredPrf nm im sl sb L step su u).generate st idx ++
        (mkStructuredPrf nm im sl sb L step su u).generate st
          (idx + (mkStructuredPrf nm im sl sb L step su u).idx_step) =
      generateOfUnit u (step + step) st idx) := by
  refine ⟨Dvd.intro L rfl, ?_, ?_⟩
  · intro st idx
    exact generateOfUnit_length u L hu step st idx
  · intro st idx
    exact generateOfUnit_append u step step st idx

/-- The result code of the OS adapter is zero exactly when the environment
had entropy for that call. -/
theorem os_code_zero (src : OSSource) (call n : Nat) :
    ((ottery_os_randbytes_ src call n).1 = 0) ↔
      (src.outcome call n).isSome := by
  unfold ottery_os_randbytes_
  cases h : src.outcome call n <;> simp

/-- `consByte` only touches the byte outcome, not the generator. -/
theorem consByte_snd (b : Nat) (p : Except EngineErr Bytes × Generator) :
    (consByte b p).2 = p.2 := rfl

/-- A successful `consByte` outcome comes from a successful tail with one
byte prepended. -/
theorem consByte_ok (b : Nat) (p : Except EngineErr Bytes × Generator)
    (bs : Bytes) (h : (consByte b p).1 = .ok bs) :
    ∃ bs2, p.1 = .ok bs2 ∧ bs = b :: bs2 := by
  cases hp : p.1 with
  | ok v =>
    refine ⟨v, rfl, ?_⟩
    simp [consByte, hp, Except.map] at h
    exact h.symm
  | error e => simp [consByte, hp, Except.map] at h

/-- `genBlock` changes only the buffer, counter and log. -/
theorem genBlock_fields (g : Generator) :
    (genBlock g).prf = g.prf ∧ (genBlock g).reseedMargin = g.reseedMargin ∧
    (genBlock g).status = g.status ∧ (genBlock g).epoch = g.epoch ∧
    (genBlock g).state = g.state :=
  ⟨rfl, rfl, rfl, rfl, rfl⟩

/-- `reseed` never changes the bound descriptor, the margin policy or the
ghost log, and always makes exactly one entropy call. -/
theorem reseed_fields (src : OSSource) (g : Generator) :
    (reseed src g).prf = g.prf ∧
    (reseed src g).reseedMargin = g.reseedMargin ∧
    (reseed src g).log = g.log ∧
    (reseed src g).osCall = g.osCall + 1 := by
  unfold reseed
  split <;> exact ⟨rfl, rfl, rfl, rfl⟩

/-- `refill` preserves the bound descriptor and the margin policy. -/
theorem refill_fields (src : OSSource) (g : Generator) :
    (refill src g).prf = g.prf ∧
    (refill src g).reseedMargin = g.reseedMargin := by
  unfold refill
  split
  · exact ⟨rfl, rfl⟩
  · split
    · exact ⟨(reseed_fields src g).1, (reseed_fields src g).2.1⟩
    · exact ⟨(reseed_fields src g).1, (reseed_fields src g).2.1⟩

/-- The `fill` loop preserves the bound descriptor and the margin policy. -/
theorem fillLoop_fields (src : OSSource) :
    ∀ (n : Nat) (g : Generator),
      (fillLoop src n g).2.prf = g.prf ∧
      (fillLoop src n g).2.reseedMargin = g.reseedMargin := by
  intro n
  induction n with
  | zero => intro g; exact ⟨rfl, rfl⟩
  | succ n ih =>
    intro g
    rw [fillLoop]
    cases hb : g.buffer with
    | cons b rest => exact ih { g with buffer := rest }
    | nil =>
      simp only
      split
      · cases hb1 : (refill src g).buffer with
        | cons b rest =>
          have h1 := ih { refill src g with buffer := rest }
          have h2 := refill_fields src g
          simp only [consByte_snd]
          exact ⟨h1.1.trans h2.1, h1.2.trans h2.2⟩
        | nil => exact refill_fields src g
      · exact refill_fields src g

/-- `fill` preserves the bound descriptor and the margin policy. -/
theorem fill_fields (src : OSSource) (n : Nat) (g : Generator) :
    (fill src n g).2.prf = g.prf ∧
    (fill src n g).2.reseedMargin = g.reseedMargin := by
  unfold fill
  split
  · exact fillLoop_fields src n g
  · exact ⟨rfl, rfl⟩

/-- A successful pass through the `fill` loop produces exactly the requested
number of bytes. -/
theorem fillLoop_len (src : OSSource) :
    ∀ (n : Nat) (g : Generator) (bs : Bytes),
      (fillLoop src n g).1 = .ok bs → bs.length = n := by
  intro n
  induction n with
  | zero =>
    intro g bs h
    simp only [fillLoop] at h
    cases h
    rfl
  | succ n ih =>
    intro g bs h
    rw [fillLoop] at h
    cases hb : g.buffer with
    | cons b rest =>
      rw [hb] at h
      obtain ⟨bs2, h2, rfl⟩ := consByte_ok b _ bs h
      simp [ih _ bs2 h2]
    | nil =>
      rw [hb] at h
      simp only at h
      split at h
      · cases hb1 : (refill src g).buffer with
        | cons b rest =>
          rw [hb1] at h
          obtain ⟨bs2, h2, rfl⟩ := consByte_ok b _ bs h
          simp [ih _ bs2 h2]
        | nil => rw [hb1] at h; cases h
      · cases h

/-- Claim C7: `fill` has no partial success — a successful request for `n`
bytes yields exactly `n` bytes (and any failing request yields none, the
outcome being an error value instead of bytes). -/
theorem fill_all_or_nothing (src : OSSource) (n : Nat) (g : Generator)
    (bs : Bytes) (h : (fill src n g).1 = .ok bs) : bs.length = n := by
  unfold fill at h
  split at h
  · exact fillLoop_len src n g bs h
  · cases h

/-- Witness for C7: the toy generator serves exactly 3 bytes on `fill 3`. -/
theorem fill_all_or_nothing_w : ([0, 0, 1] : Bytes).length = 3 :=
  fill_all_or_nothing tSrc 3 tg0 [0, 0, 1] rfl

/-- Claim C2: entropy failure is fail-stop.  A failed sample during `create`
surfaces as the distinct `EntropySourceUnavailable` error and produces no
generator; a failed sample during `reseed` leaves the generator in status
Failed; `reseed` makes exactly one entropy call (no internal retry); and a
generator in status Failed refuses every `fill` with `UseAfterFailure`,
returning no bytes and remaining unchanged. -/
theorem entropy_failure_fail_stop (src : OSSource) (prf : ottery_prf)
    (m : Nat) (g : Generator) (n : Nat) :
    (src.outcome 0 prf.state_bytes = none →
      create src prf m = .error .EntropySourceUnavailable) ∧
    (src.outcome g.osCall g.prf.state_bytes = none →
      (reseed src g).status = .Failed) ∧
    (reseed src g).osCall = g.osCall + 1 ∧
    (g.status = .Failed →
      fill src n g = (.error .UseAfterFailure, g)) := by
  refine ⟨?_, ?_, (reseed_fields src g).2.2.2, ?_⟩
  · intro h
    unfold create ottery_os_randbytes_
    rw [h]
    simp
  · intro h
    unfold reseed ottery_os_randbytes_
    rw [h]
    simp
  · intro h
    unfold fill
    rw [h]
    simp

/-- Witness for C2: the always-failing entropy environment. -/
theorem entropy_failure_fail_stop_w :
    create badSrc tPrf 5 = .error .EntropySourceUnavailable ∧
    (reseed badSrc tgF).status = .Failed ∧
    (reseed badSrc tgF).osCall = tgF.osCall + 1 ∧
    fill badSrc 3 tgF = (.error .UseAfterFailure, tgF) :=
  ⟨(entropy_failure_fail_stop badSrc tPrf 5 tgF 3).1 rfl,
   (entropy_failure_fail_stop badSrc tPrf 5 tgF 3).2.1 rfl,
   (entropy_failure_fail_stop badSrc tPrf 5 tgF 3).2.2.1,
   (entropy_failure_fail_stop badSrc tPrf 5 tgF 3).2.2.2 rfl⟩

/-- `combineFill` commutes with serving one buffered byte first. -/
theorem combineFill_consByte (src : OSSource) (n2 : Nat) (b : Nat)
    (p : Except EngineErr Bytes × Generator) :
    combineFill src n2 (consByte b p) = consByte b (combineFill src n2 p) := by
  obtain ⟨r, g1⟩ := p
  cases r with
  | ok b1 =>
    simp only [consByte, Except.map, combineFill]
    cases h : fillLoop src n2 g1 with
    | mk r2 g2 => cases r2 <;> simp [Except.map]
  | error e => simp [consByte, Except.map, combineFill]

/-- Serving `n1 + n2` bytes in one pass of the loop is serving `n1` and then
completing with `n2` more. -/
theorem fillLoop_add (src : OSSource) :
    ∀ (n1 n2 : Nat) (g : Generator),
      fillLoop src (n1 + n2) g = combineFill src n2 (fillLoop src n1 g) := by
  intro n1
  induction n1 with
  | zero =>
    intro n2 g
    rw [Nat.zero_add]
    show fillLoop src n2 g = combineFill src n2 (.ok [], g)
    unfold combineFill
    cases h : fillLoop src n2 g with
    | mk r g2 => cases r <;> simp [h]
  | succ n ih =>
    intro n2 g
    rw [Nat.succ_add, fillLoop]
    conv_rhs => rw [fillLoop]
    cases hb : g.buffer with
    | cons b rest =>
      simp only
      rw [ih n2 { g with buffer := rest }, combineFill_consByte]
    | nil =>
      simp only
      split
      · cases hb1 : (refill src g).buffer with
        | cons b rest =>
          simp only
          rw [ih n2 { refill src g with buffer := rest }, combineFill_consByte]
        | nil => simp [combineFill]
      · simp [combineFill]

/-- A `fill` loop pass that starts Seeded and succeeds ends Seeded. -/
theorem fillLoop_ok_status (src : OSSource) :
    ∀ (n : Nat) (g : Generator) (bs : Bytes), g.status = .Seeded →
      (fillLoop src n g).1 = .ok bs →
      (fillLoop src n g).2.status = .Seeded := by
  intro n
  induction n with
  | zero =>
    intro g bs hs _
    exact hs
  | succ n ih =>
    intro g bs hs h
    rw [fillLoop] at h
    rw [fillLoop]
    cases hb : g.buffer with
    | cons b rest =>
      rw [hb] at h
      obtain ⟨bs2, h2, _⟩ := consByte_ok b _ bs h
      show (fillLoop src n { g with buffer := rest }).2.status = _
      exact ih { g with buffer := rest } bs2 hs h2
    | nil =>
      rw [hb] at h
      simp only at h
      split at h
      · rename_i hsd
        rw [if_pos hsd]
        cases hb1 : (refill src g).buffer with
        | cons b rest =>
          rw [hb1] at h
          obtain ⟨bs2, h2, _⟩ := consByte_ok b _ bs h
          show (fillLoop src n
            { refill src g with buffer := rest }).2.status = _
          exact ih { refill src g with buffer := rest } bs2 hsd h2
        | nil =>
          rw [hb1] at h
          simp at h
      · rename_i hsd
        simp at h

/-- A refused or permitted `fill`, as plain equations. -/
theorem fill_eq_loop (src : OSSource) (n : Nat) (g : Generator)
    (hs : g.status = .Seeded) : fill src n g = fillLoop src n g := by
  unfold fill
  rw [if_pos hs]

/-- `fill` on a generator not in status Seeded is refused unchanged. -/
theorem fill_eq_refused (src : OSSource) (n : Nat) (g : Generator)
    (hs : ¬g.status = .Seeded) :
    fill src n g = (.error .UseAfterFailure, g) := by
  unfold fill
  rw [if_neg hs]

/-- Claim C3: buffering correctness.  For every generator, source and
partition `n = n1 + n2`, a single `fill (n1 + n2)` is exactly `fill n1`
followed by `fill n2` with the outputs concatenated — same bytes, same
final generator, and matching failure behaviour; no bytes are skipped,
duplicated or reordered across buffer refills. -/
theorem fill_concat (src : OSSource) (n1 n2 : Nat) (g : Generator) :
    fill src (n1 + n2) g = fillSplit src n1 n2 g := by
  unfold fillSplit
  by_cases hs : g.status = .Seeded
  · rw [fill_eq_loop src (n1 + n2) g hs, fill_eq_loop src n1 g hs,
      fillLoop_add src n1 n2 g]
    cases h1 : fillLoop src n1 g with
    | mk r1 g1 =>
      cases r1 with
      | ok b1 =>
        have hst : g1.status = .Seeded := by
          have hx := fillLoop_ok_status src n1 g b1 hs (by rw [h1])
          rw [h1] at hx
          exact hx
        dsimp only
        rw [fill_eq_loop src n2 g1 hst]
        cases h2 : fillLoop src n2 g1 with
        | mk r2 g2 => cases r2 <;> simp [combineFill, h2]
      | error e => simp [combineFill]
  · rw [fill_eq_refused src (n1 + n2) g hs, fill_eq_refused src n1 g hs]

/-- `reseed` ignores the junk a failed entropy call leaves in the buffer. -/
theorem reseed_junk_indep (o : Nat → Nat → Option Bytes)
    (j j2 : Nat → Nat → Bytes) (g : Generator) :
    reseed ⟨o, j⟩ g = reseed ⟨o, j2⟩ g := by
  unfold reseed ottery_os_randbytes_
  cases h : o g.osCall g.prf.state_bytes <;> simp [h]

/-- `create` ignores the junk a failed entropy call leaves in the buffer. -/
theorem create_junk_indep (o : Nat → Nat → Option Bytes)
    (j j2 : Nat → Nat → Bytes) (p : ottery_prf) (m : Nat) :
    create ⟨o, j⟩ p m = create ⟨o, j2⟩ p m := by
  unfold create ottery_os_randbytes_
  cases h : o 0 p.state_bytes <;> simp [h]

/-- `refill` ignores the junk a failed entropy call leaves in the buffer. -/
theorem refill_junk_indep (o : Nat → Nat → Option Bytes)
    (j j2 : Nat → Nat → Bytes) (g : Generator) :
    refill ⟨o, j⟩ g = refill ⟨o, j2⟩ g := by
  unfold refill
  rw [reseed_junk_indep o j j2 g]

/-- The `fill` loop ignores the junk failed entropy calls leave behind. -/
theorem fillLoop_junk_indep (o : Nat → Nat → Option Bytes)
    (j j2 : Nat → Nat → Bytes) :
    ∀ (n : Nat) (g : Generator),
      fillLoop ⟨o, j⟩ n g = fillLoop ⟨o, j2⟩ n g := by
  intro n
  induction n with
  | zero => intro g; rfl
  | succ n ih =>
    intro g
    rw [fillLoop]
    conv_rhs => rw [fillLoop]
    simp only [refill_junk_indep o j j2 g, ih]

/-- `fill` ignores the junk failed entropy calls leave behind. -/
theorem fill_junk_indep (o : Nat → Nat → Option Bytes)
    (j j2 : Nat → Nat → Bytes) (n : Nat) (g : Generator) :
    fill ⟨o, j⟩ n g = fill ⟨o, j2⟩ n g := by
  unfold fill
  rw [fillLoop_junk_indep o j j2 n g]

/-- Claim C6: the OS adapter returns success (0) or failure (-1) — success
exactly when the environment had entropy — and the generator honors the
failure postcondition: the outcome of no operation depends on the contents a
failed sample leaves in the buffer (`create`, `reseed` and `fill` are
unchanged under any change of that junk). -/
theorem os_entropy_contract (o : Nat → Nat → Option Bytes)
    (j j2 : Nat → Nat → Bytes) (c n m : Nat) (g : Generator)
    (p : ottery_prf) :
    ((ottery_os_randbytes_ ⟨o, j⟩ c n).1 = 0 ∨
      (ottery_os_randbytes_ ⟨o, j⟩ c n).1 = -1) ∧
    ((ottery_os_randbytes_ ⟨o, j⟩ c n).1 = 0 ↔ (o c n).isSome) ∧
    create ⟨o, j⟩ p m = create ⟨o, j2⟩ p m ∧
    reseed ⟨o, j⟩ g = reseed ⟨o, j2⟩ g ∧
    fill ⟨o, j⟩ n g = fill ⟨o, j2⟩ n g := by
  refine ⟨?_, os_code_zero ⟨o, j⟩ c n, create_junk_indep o j j2 p m,
    reseed_junk_indep o j j2 g, fill_junk_indep o j j2 n g⟩
  unfold ottery_os_randbytes_
  cases h : o c n <;> simp [h]

/-- What `reseed` does to the analysis-relevant fields: log, descriptor and
margin are untouched; the counter/epoch pair is either reset/advanced (on
success) or untouched (on failure). -/
theorem reseed_cases (src : OSSource) (g : Generator) :
    ((reseed src g).log = g.log ∧ (reseed src g).prf = g.prf ∧
      (reseed src g).reseedMargin = g.reseedMargin) ∧
    (((reseed src g).counter = 0 ∧ (reseed src g).epoch = g.epoch + 1) ∨
      ((reseed src g).counter = g.counter ∧
        (reseed src g).epoch = g.epoch)) := by
  unfold reseed
  split
  · exact ⟨⟨rfl, rfl, rfl⟩, Or.inl ⟨rfl, rfl⟩⟩
  · exact ⟨⟨rfl, rfl, rfl⟩, Or.inr ⟨rfl, rfl⟩⟩

/-- The generator invariant survives any step that keeps the log,
descriptor and margin and either resets the counter while advancing the
epoch, or leaves counter and epoch alone. -/
theorem GenInv_of_eqs (g r : Generator) (hlog : r.log = g.log)
    (hprf : r.prf = g.prf) (hm : r.reseedMargin = g.reseedMargin)
    (hce : (r.counter = 0 ∧ r.epoch = g.epoch + 1) ∨
      (r.counter = g.counter ∧ r.epoch = g.epoch))
    (hg : GenInv g) : GenInv r := by
  obtain ⟨⟨h1, h2, h3⟩, hlb, hld⟩ := hg
  refine ⟨⟨by rw [hprf]; exact h1, by rw [hm]; exact h2,
    by rw [hprf, hm]; exact h3⟩, ?_, ?_⟩
  · intro e he
    rw [hlog] at he
    have h4 := hlb e he
    rw [hprf]
    rcases hce with ⟨hc, he2⟩ | ⟨hc, he2⟩
    · rw [he2]
      refine ⟨Or.inl ?_, h4.2⟩
      rcases h4.1 with h5 | ⟨h5, _⟩ <;> omega
    · rw [hc, he2]
      exact h4
  · show r.log.Pairwise _
    rw [hlog]
    exact hld

/-- A guarded `generate` call preserves the generator invariant: the fresh
log entry sits at the current counter, strictly above every earlier entry
of the epoch, and the margin guard keeps the advanced counter below the
32-bit limit (so the modulus does not wrap). -/
theorem genBlock_inv (g : Generator) (hc : canStep g = true)
    (hg : GenInv g) : GenInv (genBlock g) := by
  obtain ⟨⟨h1, h2, h3⟩, hlb, hld⟩ := hg
  have hcs : g.counter + g.prf.idx_step + g.reseedMargin ≤ counterModulus := by
    simpa [canStep] using hc
  have hlt : g.counter + g.prf.idx_step < counterModulus := by omega
  have hmod : (g.counter + g.prf.idx_step) % counterModulus =
      g.counter + g.prf.idx_step := Nat.mod_eq_of_lt hlt
  refine ⟨⟨h1, h2, h3⟩, ?_, ?_⟩
  · intro e he
    have he2 : e ∈ g.log ∨ e = gEntry g := by
      simpa [genBlock] using he
    show (e.epoch < g.epoch ∨ (e.epoch = g.epoch ∧
        e.idx + g.prf.idx_step ≤
          (g.counter + g.prf.idx_step) % counterModulus)) ∧
      e.idx + g.prf.idx_step ≤ counterModulus
    rw [hmod]
    rcases he2 with he2 | rfl
    · have h4 := hlb e he2
      refine ⟨?_, h4.2⟩
      rcases h4.1 with h5 | ⟨h5, h6⟩
      · exact Or.inl h5
      · exact Or.inr ⟨h5, by omega⟩
    · refine ⟨Or.inr ⟨rfl, le_refl _⟩, ?_⟩
      show g.counter + g.prf.idx_step ≤ counterModulus
      omega
  · show (g.log ++ [gEntry g]).Pairwise
      (fun a b => a.epoch ≠ b.epoch ∨ a.idx ≠ b.idx)
    rw [List.pairwise_append]
    refine ⟨hld, by simp, ?_⟩
    intro a ha b hb
    have hb2 : b = gEntry g := by simpa using hb
    subst hb2
    have h4 := hlb a ha
    rcases h4.1 with h5 | ⟨h5, h6⟩
    · refine Or.inl ?_
      show a.epoch ≠ g.epoch
      omega
    · refine Or.inr ?_
      show a.idx ≠ g.counter
      omega

/-- `reseed` preserves the generator invariant. -/
theorem reseed_inv (src : OSSource) (g : Generator) (hg : GenInv g) :
    GenInv (reseed src g) := by
  have hc := reseed_cases src g
  exact GenInv_of_eqs g (reseed src g) hc.1.1 hc.1.2.1 hc.1.2.2 hc.2 hg

/-- `refill` preserves the generator invariant. -/
theorem refill_inv (src : OSSource) (g : Generator) (hg : GenInv g) :
    GenInv (refill src g) := by
  unfold refill
  split
  · rename_i hc
    exact genBlock_inv g hc hg
  · split
    · rename_i hc
      exact genBlock_inv _ hc.2 (reseed_inv src g hg)
    · exact reseed_inv src g hg

/-- The `fill` loop preserves the generator invariant. -/
theorem fillLoop_inv (src : OSSource) :
    ∀ (n : Nat) (g : Generator), GenInv g →
      GenInv (fillLoop src n g).2 := by
  intro n
  induction n with
  | zero => intro g hg; exact hg
  | succ n ih =>
    intro g hg
    rw [fillLoop]
    cases hb : g.buffer with
    | cons b rest =>
      show GenInv (fillLoop src n { g with buffer := rest }).2
      exact ih { g with buffer := rest } hg
    | nil =>
      simp only
      split
      · cases hb1 : (refill src g).buffer with
        | cons b rest =>
          exact ih { refill src g with buffer := rest }
            (refill_inv src g hg)
        | nil => exact refill_inv src g hg
      · exact refill_inv src g hg

/-- One caller operation preserves the generator invariant. -/
theorem applyOp_inv (src : OSSource) (g : Generator) (op : Op)
    (hg : GenInv g) : GenInv (applyOp src g op) := by
  cases op with
  | fillOp n =>
    show GenInv (fill src n g).2
    unfold fill
    split
    · exact fillLoop_inv src n g hg
    · exact hg
  | reseedOp => exact reseed_inv src g hg

/-- Any sequence of caller operations preserves the generator invariant. -/
theorem runOps_inv (src : OSSource) (ops : List Op) :
    ∀ (g : Generator), GenInv g → GenInv (runOps src g ops) := by
  induction ops with
  | nil => intro g hg; exact hg
  | cons op rest ih =>
    intro g hg
    exact ih (applyOp src g op) (applyOp_inv src g op hg)

/-- What a successful `create` returns: the requested descriptor and
margin, and an empty ghost log. -/
theorem create_ok (src : OSSource) (prf : ottery_prf) (m : Nat)
    (g0 : Generator) (hc : create src prf m = .ok g0) :
    g0.prf = prf ∧ g0.log = [] ∧ g0.reseedMargin = m := by
  unfold create at hc
  split at hc
  · cases hc
    exact ⟨rfl, rfl, rfl⟩
  · cases hc

/-- A freshly created generator with a sane policy satisfies the
invariant. -/
theorem create_inv (src : OSSource) (prf : ottery_prf) (m : Nat)
    (g0 : Generator) (h1 : 1 ≤ prf.idx_step) (h2 : 1 ≤ m)
    (h3 : prf.idx_step + m ≤ counterModulus)
    (hc : create src prf m = .ok g0) : GenInv g0 := by
  unfold create at hc
  split at hc
  · cases hc
    refine ⟨⟨h1, h2, h3⟩, ?_, ?_⟩
    · intro e he
      exact absurd he (List.not_mem_nil e)
    · exact List.Pairwise.nil
  · cases hc

/-- One caller operation never changes the bound descriptor. -/
theorem applyOp_prf (src : OSSource) (g : Generator) (op : Op) :
    (applyOp src g op).prf = g.prf := by
  cases op with
  | fillOp n => exact (fill_fields src n g).1
  | reseedOp => exact (reseed_fields src g).1

/-- A sequence of caller operations never changes the bound descriptor. -/
theorem runOps_prf (src : OSSource) (ops : List Op) :
    ∀ (g : Generator), (runOps src g ops).prf = g.prf := by
  induction ops with
  | nil => intro g; rfl
  | cons op rest ih =>
    intro g
    exact (ih (applyOp src g op)).trans (applyOp_prf src g op)

/-- A `generate` call appends a faithful log entry. -/
theorem genBlock_faithful (g : Generator) (hf : LogFaithful g) :
    LogFaithful (genBlock g) := by
  intro e he
  have he2 : e ∈ g.log ∨ e = gEntry g := by
    simpa [genBlock] using he
  show e.block = g.prf.generate e.key e.idx
  rcases he2 with he2 | rfl
  · exact hf e he2
  · rfl

/-- `reseed` keeps the log faithful. -/
theorem reseed_faithful (src : OSSource) (g : Generator)
    (hf : LogFaithful g) : LogFaithful (reseed src g) := by
  intro e he
  have hc := reseed_cases src g
  rw [hc.1.1] at he
  show e.block = (reseed src g).prf.generate e.key e.idx
  rw [hc.1.2.1]
  exact hf e he

/-- `refill` keeps the log faithful. -/
theorem refill_faithful (src : OSSource) (g : Generator)
    (hf : LogFaithful g) : LogFaithful (refill src g) := by
  unfold refill
  split
  · exact genBlock_faithful g hf
  · split
    · exact genBlock_faithful _ (reseed_faithful src g hf)
    · exact reseed_faithful src g hf

/-- The `fill` loop keeps the log faithful. -/
theorem fillLoop_faithful (src : OSSource) :
    ∀ (n : Nat) (g : Generator), LogFaithful g →
      LogFaithful (fillLoop src n g).2 := by
  intro n
  induction n with
  | zero => intro g hf; exact hf
  | succ n ih =>
    intro g hf
    rw [fillLoop]
    cases hb : g.buffer with
    | cons b rest =>
      show LogFaithful (fillLoop src n { g with buffer := rest }).2
      exact ih { g with buffer := rest } hf
    | nil =>
      simp only
      split
      · cases hb1 : (refill src g).buffer with
        | cons b rest =>
          exact ih { refill src g with buffer := rest }
            (refill_faithful src g hf)
        | nil => exact refill_faithful src g hf
      · exact refill_faithful src g hf

/-- One caller operation keeps the log faithful. -/
theorem applyOp_faithful (src : OSSource) (g : Generator) (op : Op)
    (hf : LogFaithful g) : LogFaithful (applyOp src g op) := by
  cases op with
  | fillOp n =>
    show LogFaithful (fill src n g).2
    unfold fill
    split
    · exact fillLoop_faithful src n g hf
    · exact hf
  | reseedOp => exact reseed_faithful src g hf

/-- Any sequence of caller operations keeps the log faithful. -/
theorem runOps_faithful (src : OSSource) (ops : List Op) :
    ∀ (g : Generator), LogFaithful g →
      LogFaithful (runOps src g ops) := by
  induction ops with
  | nil => intro g hf; exact hf
  | cons op rest ih =>
    intro g hf
    exact ih (applyOp src g op) (applyOp_faithful src g op hf)

/-- Claim C1: no two `generate` invocations performed on behalf of `fill`
use the same `(state, idx)` pair, in any execution from `create` under a
sane margin policy: every pair of logged calls differs in reseed epoch or
in counter value, and every logged call kept `idx + idx_step` within the
32-bit counter space — the margin guard reseeds strictly before the counter
could reach or wrap past its maximum, so counter overflow is
unreachable. -/
theorem reseed_before_counter_reuse (src : OSSource) (prf : ottery_prf)
    (m : Nat) (g0 : Generator) (ops : List Op)
    (h1 : 1 ≤ prf.idx_step) (h2 : 1 ≤ m)
    (h3 : prf.idx_step + m ≤ counterModulus)
    (hc : create src prf m = .ok g0) :
    ((runOps src g0 ops).log.Pairwise
      (fun a b => a.epoch ≠ b.epoch ∨ a.idx ≠ b.idx)) ∧
    (∀ e ∈ (runOps src g0 ops).log,
      e.idx + prf.idx_step ≤ counterModulus) := by
  have hinv := runOps_inv src ops g0 (create_inv src prf m g0 h1 h2 h3 hc)
  refine ⟨hinv.2.2, ?_⟩
  intro e he
  have h4 := hinv.2.1 e he
  have hp : (runOps src g0 ops).prf = prf :=
    (runOps_prf src ops g0).trans (create_ok src prf m g0 hc).1
  rw [hp] at h4
  exact h4.2

/-- Witness for C1: a concrete run (two fills around a reseed) of the toy
generator. -/
theorem reseed_before_counter_reuse_w :
    ((runOps tSrc tg0 [.fillOp 3, .reseedOp, .fillOp 2]).log.Pairwise
      (fun a b => a.epoch ≠ b.epoch ∨ a.idx ≠ b.idx)) ∧
    (∀ e ∈ (runOps tSrc tg0 [.fillOp 3, .reseedOp, .fillOp 2]).log,
      e.idx + tPrf.idx_step ≤ counterModulus) :=
  reseed_before_counter_reuse tSrc tPrf 5 tg0
    [.fillOp 3, .reseedOp, .fillOp 2] (by decide) (by decide) (by decide)
    rfl

/-- Claim C4: `generate` is a deterministic, side-effect-free function of
exactly `(state, idx)`: any two logged `generate` calls made on behalf of
two (possibly different) runs of generators bound to the same descriptor,
with equal state contents and equal counter, produced byte-identical
blocks, regardless of how many calls occurred in between or in what order
counters were visited. -/
theorem generate_pure_deterministic (src1 src2 : OSSource)
    (p : ottery_prf) (m1 m2 : Nat) (g1 g2 : Generator)
    (ops1 ops2 : List Op) (e1 e2 : GCall)
    (hc1 : create src1 p m1 = .ok g1) (hc2 : create src2 p m2 = .ok g2)
    (he1 : e1 ∈ (runOps src1 g1 ops1).log)
    (he2 : e2 ∈ (runOps src2 g2 ops2).log)
    (hk : e1.key = e2.key) (hi : e1.idx = e2.idx) :
    e1.block = e2.block := by
  have hf0 : LogFaithful g1 := by
    intro e he
    rw [(create_ok src1 p m1 g1 hc1).2.1] at he
    exact absurd he (List.not_mem_nil e)
  have hf0b : LogFaithful g2 := by
    intro e he
    rw [(create_ok src2 p m2 g2 hc2).2.1] at he
    exact absurd he (List.not_mem_nil e)
  have hb1 := runOps_faithful src1 ops1 g1 hf0 e1 he1
  have hb2 := runOps_faithful src2 ops2 g2 hf0b e2 he2
  have hp1 : (runOps src1 g1 ops1).prf = p :=
    (runOps_prf src1 ops1 g1).trans (create_ok src1 p m1 g1 hc1).1
  have hp2 : (runOps src2 g2 ops2).prf = p :=
    (runOps_prf src2 ops2 g2).trans (create_ok src2 p m2 g2 hc2).1
  rw [hp1] at hb1
  rw [hp2] at hb2
  rw [hb1, hb2, hk, hi]

/-- Witness for C4: the same logged call, reached in two identical runs of
the toy generator. -/
theorem generate_pure_deterministic_w :
    (GCall.mk 1 [7, 7] 0 [0, 0]).block =
      (GCall.mk 1 [7, 7] 0 [0, 0]).block :=
  generate_pure_deterministic tSrc tSrc tPrf 5 5 tg0 tg0
    [.fillOp 1] [.fillOp 1] (GCall.mk 1 [7, 7] 0 [0, 0])
    (GCall.mk 1 [7, 7] 0 [0, 0]) rfl rfl (by decide) (by decide) rfl rfl

/-- Witness for C9 at the concrete structured descriptor `tinyChacha`. -/
theorem prf_block_structure_w :
    tinyChacha.idx_step ∣ tinyChacha.output_len ∧
    (∀ st idx,
      (tinyChacha.generate st idx).length = tinyChacha.output_len) ∧
    (∀ st idx,
      tinyChacha.generate st idx ++
        tinyChacha.generate st (idx + tinyChacha.idx_step) =
      generateOfUnit tinyUnit (1 + 1) st idx) :=
  prf_block_structure "chacha20" "merged" 64 32 64 1 (fun bs => bs.take 64)
    tinyUnit (fun st i => by simp [tinyUnit])

end Ottery
